import Mathlib

/-!
Shallow embedding of the analytical core of the btc-dominance tracker
(src/main.py): the trend analyzer `analyze_alts` (rankings and
accumulation alerts over a 7-day window of per-asset samples and a
dominance series), the dominance fetch and its handling in the main
loop, and the alert thresholds.

Conventions of the embedding:
- Prices, volumes and dominance percentages are rationals.
- A stored per-asset sample is a pair of price and optional volume
  (the volume column is nullable; `r[1] or 0` in the source coerces a
  null or zero volume to 0 when averaging).
- Python exceptions (ZeroDivisionError from `(latest - initial) /
  initial` when the initial price is 0, TypeError from comparing a
  None volume) are made explicit as `Except` errors, since they abort
  `analyze_alts` without producing output.
- Python dict iteration order is insertion order, so `past_data`
  becomes an association list; `sorted(..., reverse=True)` is a stable
  descending sort, embedded with `List.insertionSort` on the relation
  that compares second components in reverse.
-/

namespace BtcDominance

/-- One stored row of the alt_btc_strength table for one asset: the
price in the reference asset and the (nullable) volume. -/
structure Record where
  price : Rat
  volume : Option Rat
deriving Repr, DecidableEq, Inhabited

/-- Threshold constant BTC_DOMINANCE_HIGH from src/main.py line 25. -/
def BTC_DOMINANCE_HIGH : Rat := 55

/-- Threshold constant BTC_DOMINANCE_LOW from src/main.py line 26. -/
def BTC_DOMINANCE_LOW : Rat := 45

/-- Threshold constant ALT_STRENGTH_CHANGE_THRESHOLD from src/main.py line 27. -/
def ALT_STRENGTH_CHANGE_THRESHOLD : Rat := 2/100

/-- Threshold constant ACCUMULATION_VOLUME_SPIKE from src/main.py line 28. -/
def ACCUMULATION_VOLUME_SPIKE : Rat := 3/2

/-- The dominance-trend delta of analyze_alts (src/main.py line 115):
last minus first dominance value when the window holds at least two
samples, else 0. -/
def btcDominanceChange (trend : List Rat) : Rat :=
  if 2 ≤ trend.length then trend.getLastD 0 - trend.headD 0 else 0

/-- The arithmetic mean of the window volumes with null volumes
coerced to 0 (src/main.py line 122). -/
def avgVolume (records : List Record) : Rat :=
  (records.map (fun r => r.volume.getD 0)).sum / (records.length : Rat)

/-- The two runtime errors the per-asset analysis can raise:
ZeroDivisionError from dividing by a zero initial price (line 124) and
TypeError from comparing a None latest volume (line 128). -/
inductive AnalyzeError where
  | zeroDivision
  | noneComparison
deriving Repr, DecidableEq

/-- The per-asset body of the analyze_alts loop (src/main.py lines
120-129), for one asset's window records: on success, the asset's
relative strength and whether its accumulation alert fires. The
division by the initial price happens before the volume comparison, so
a zero initial price raises first. -/
def analyzeAlt (domChange : Rat) (records : List Record) :
    Except AnalyzeError (Rat × Bool) :=
  if (records.headD default).price = 0 then
    .error .zeroDivision
  else
    match (records.getLastD default).volume with
    | none => .error .noneComparison
    | some v =>
      .ok (((records.getLastD default).price - (records.headD default).price)
            / (records.headD default).price - domChange,
          decide (avgVolume records * ACCUMULATION_VOLUME_SPIKE < v))

/-- The analyze_alts loop over all assets (src/main.py lines 117-129):
skip assets with fewer than two window samples, otherwise record the
relative strength and, when the alert fires, the asset id of the
accumulation alert. The first per-asset error aborts the whole
analysis. -/
def collectRankings (domChange : Rat) :
    List (String × List Record) → Except AnalyzeError (List (String × Rat) × List String)
  | [] => .ok ([], [])
  | (altId, records) :: rest =>
    if records.length < 2 then
      collectRankings domChange rest
    else
      match analyzeAlt domChange records with
      | .error e => .error e
      | .ok (rs, fires) =>
        match collectRankings domChange rest with
        | .error e => .error e
        | .ok (rankings, alerts) =>
          .ok ((altId, rs) :: rankings, if fires then altId :: alerts else alerts)

/-- Descending order on ranking entries by relative strength, the sort
key of src/main.py line 131. -/
def rankDescOrder : (String × Rat) → (String × Rat) → Prop := fun a b => b.2 ≤ a.2

instance : DecidableRel rankDescOrder := fun a b =>
  inferInstanceAs (Decidable (b.2 ≤ a.2))

instance : IsTotal (String × Rat) rankDescOrder := ⟨fun a b => le_total b.2 a.2⟩

instance : IsTrans (String × Rat) rankDescOrder :=
  ⟨fun _ _ _ h1 h2 => le_trans h2 h1⟩

/-- analyze_alts (src/main.py lines 110-132) on a window of per-asset
records and a dominance series: the top five assets by descending
relative strength, and the accumulation alerts. -/
def analyze_alts (pastData : List (String × List Record)) (trend : List Rat) :
    Except AnalyzeError (List (String × Rat) × List String) :=
  match collectRankings (btcDominanceChange trend) pastData with
  | .error e => .error e
  | .ok (rankings, alerts) =>
    .ok ((rankings.insertionSort rankDescOrder).take 5, alerts)

/-- Count of assets with at least two samples in the window: those the
analyzer ranks rather than skips. -/
def qualifyingCount (pastData : List (String × List Record)) : Nat :=
  (pastData.filter (fun p => decide (2 ≤ p.2.length))).length

/-- The response of the global-dominance endpoint as the code
inspects it: the HTTP status, and the btc market-cap-percentage field
when the payload carries one. -/
structure DomResponse where
  status : Nat
  btcField : Option Rat
deriving Repr, DecidableEq

/-- The uncaught Python exception of the fetch path: the KeyError from
indexing a payload that lacks the expected field. -/
inductive PyError where
  | keyError
deriving Repr, DecidableEq

/-- fetch_btc_dominance (src/main.py lines 62-68): on status 200 the
field is indexed out of the payload, raising KeyError when it is
absent; on any other status the function returns None. -/
def fetch_btc_dominance (r : DomResponse) : Except PyError (Option Rat) :=
  if r.status = 200 then
    match r.btcField with
    | some d => .ok (some d)
    | none => .error .keyError
  else
    .ok none

/-- What one main-loop cycle does with the dominance reading. -/
inductive CycleOutcome where
  | stored (d : Rat)
  | skipped
  | crashed
deriving Repr, DecidableEq

/-- The dominance part of one main-loop cycle (src/main.py lines
151-156): a fetched value is printed and stored only when it is truthy
(`if btc_dominance:`), so None and 0.0 are both dropped; an uncaught
exception from the fetch terminates the loop. -/
def dominanceCycle (r : DomResponse) : CycleOutcome :=
  match fetch_btc_dominance r with
  | .error _ => .crashed
  | .ok none => .skipped
  | .ok (some d) => if d = 0 then .skipped else .stored d

/-- Modelled from the spec: the dominance-threshold high alert of the
alert dispatcher. src/main.py declares the threshold constants (lines
25-26) but its main loop never applies them; the check described by
the spec lives in a version of the script that is not under src/. -/
def dominanceHighAlert (d : Rat) : Bool := decide (BTC_DOMINANCE_HIGH ≤ d)

/-- Modelled from the spec: the dominance-threshold low alert of the
alert dispatcher, companion of dominanceHighAlert. -/
def dominanceLowAlert (d : Rat) : Bool := decide (d ≤ BTC_DOMINANCE_LOW)

/-- Modelled from the spec: the per-asset price-change alert of the
alert dispatcher. src/main.py declares ALT_STRENGTH_CHANGE_THRESHOLD
(line 27) but never consults a previous-cycle price; the spec
describes an in-memory cache keyed by asset id. The alert fires when a
cached previous price exists and the absolute difference reaches the
threshold. -/
def priceAlertFires (cache : String → Option Rat) (altId : String) (current : Rat) : Bool :=
  match cache altId with
  | none => false
  | some prev => decide (ALT_STRENGTH_CHANGE_THRESHOLD ≤ |current - prev|)

/-- Modelled from the spec: the cache write of the price-change alert,
overwriting the asset's entry every cycle regardless of whether the
alert fired. -/
def priceCacheUpdate (cache : String → Option Rat) (altId : String) (current : Rat) :
    String → Option Rat :=
  fun k => if k = altId then some current else cache k

/-! Helper lemmas about the analyzer loop. -/

theorem collectRankings_cons (dc : Rat) (a : String) (recs : List Record)
    (rest : List (String × List Record)) :
    collectRankings dc ((a, recs) :: rest) =
      if recs.length < 2 then collectRankings dc rest
      else
        match analyzeAlt dc recs with
        | .error e => .error e
        | .ok (rs, fires) =>
          match collectRankings dc rest with
          | .error e => .error e
          | .ok (rankings, alerts) =>
            .ok ((a, rs) :: rankings, if fires then a :: alerts else alerts) := rfl

theorem analyzeAlt_ok_spec (dc : Rat) (records : List Record) (rs : Rat) (fires : Bool)
    (h : analyzeAlt dc records = .ok (rs, fires)) :
    rs = ((records.getLastD default).price - (records.headD default).price)
        / (records.headD default).price - dc ∧
    ∃ v, (records.getLastD default).volume = some v ∧
      (fires = true ↔ avgVolume records * ACCUMULATION_VOLUME_SPIKE < v) := by
  unfold analyzeAlt at h
  by_cases h0 : (records.headD default).price = 0
  · rw [if_pos h0] at h
    exact Except.noConfusion h
  · rw [if_neg h0] at h
    cases hv : (records.getLastD default).volume with
    | none =>
      rw [hv] at h
      exact Except.noConfusion h
    | some v =>
      rw [hv] at h
      simp only [Except.ok.injEq, Prod.mk.injEq] at h
      obtain ⟨h1, h2⟩ := h
      refine ⟨h1.symm, v, rfl, ?_⟩
      rw [← h2]
      simp only [decide_eq_true_eq]

theorem analyzeAlt_zero (dc : Rat) (records : List Record)
    (h0 : (records.headD default).price = 0) :
    analyzeAlt dc records = .error .zeroDivision := by
  unfold analyzeAlt
  rw [if_pos h0]

theorem analyzeAlt_none (dc : Rat) (records : List Record)
    (h0 : (records.headD default).price ≠ 0)
    (hv : (records.getLastD default).volume = none) :
    analyzeAlt dc records = .error .noneComparison := by
  unfold analyzeAlt
  rw [if_neg h0, hv]

theorem collect_ok_of_mem (dc : Rat) (pd : List (String × List Record))
    (out : List (String × Rat) × List String) (altId : String) (records : List Record)
    (hmem : (altId, records) ∈ pd) (h2 : 2 ≤ records.length)
    (hok : collectRankings dc pd = .ok out) :
    ∃ rs fires, analyzeAlt dc records = .ok (rs, fires) ∧
      (altId, rs) ∈ out.1 ∧ (fires = true → altId ∈ out.2) := by
  induction pd generalizing out with
  | nil => simp at hmem
  | cons head rest ih =>
    obtain ⟨a, recs⟩ := head
    rw [List.mem_cons] at hmem
    by_cases hlen : recs.length < 2
    · rw [collectRankings_cons, if_pos hlen] at hok
      rcases hmem with heq | hmem
      · simp only [Prod.mk.injEq] at heq
        obtain ⟨rfl, rfl⟩ := heq
        omega
      · exact ih _ hmem hok
    · rw [collectRankings_cons, if_neg hlen] at hok
      cases hval : analyzeAlt dc recs with
      | error e => simp [hval] at hok
      | ok p =>
        obtain ⟨rs, fires⟩ := p
        cases hrest : collectRankings dc rest with
        | error e2 => simp [hval, hrest] at hok
        | ok out2 =>
          obtain ⟨rankings, alerts⟩ := out2
          simp only [hval, hrest, Except.ok.injEq] at hok
          subst hok
          rcases hmem with heq | hmem
          · simp only [Prod.mk.injEq] at heq
            obtain ⟨rfl, rfl⟩ := heq
            refine ⟨rs, fires, hval, by simp, fun hf => ?_⟩
            simp [hf]
          · obtain ⟨rs2, fires2, hval2, hm1, hm2⟩ := ih _ hmem hrest
            refine ⟨rs2, fires2, hval2, by simp [hm1], fun hf => ?_⟩
            have hmm := hm2 hf
            by_cases hfi : fires <;> simp [hfi, List.mem_cons]
            · right; exact hmm
            · exact hmm

theorem collect_ok_length (dc : Rat) (pd : List (String × List Record))
    (out : List (String × Rat) × List String)
    (hok : collectRankings dc pd = .ok out) :
    out.1.length = qualifyingCount pd := by
  induction pd generalizing out with
  | nil =>
    simp only [collectRankings, Except.ok.injEq] at hok
    subst hok
    simp [qualifyingCount]
  | cons head rest ih =>
    obtain ⟨a, recs⟩ := head
    by_cases hlen : recs.length < 2
    · rw [collectRankings_cons, if_pos hlen] at hok
      have hd : (decide (2 ≤ recs.length)) = false := decide_eq_false_iff_not.mpr (by omega)
      have hq := ih _ hok
      simp only [qualifyingCount, List.filter_cons, hd] at hq ⊢
      simp only [Bool.false_eq_true, if_false]
      exact hq
    · rw [collectRankings_cons, if_neg hlen] at hok
      cases hval : analyzeAlt dc recs with
      | error e => simp [hval] at hok
      | ok p =>
        obtain ⟨rs, fires⟩ := p
        cases hrest : collectRankings dc rest with
        | error e2 => simp [hval, hrest] at hok
        | ok out2 =>
          obtain ⟨rankings, alerts⟩ := out2
          simp only [hval, hrest, Except.ok.injEq] at hok
          subst hok
          have hd : (decide (2 ≤ recs.length)) = true := decide_eq_true_eq.mpr (by omega)
          have hq := ih _ hrest
          simp only [qualifyingCount, List.filter_cons, hd] at hq ⊢
          simp only [if_true, List.length_cons]
          omega

theorem collect_ok_not_mem (dc : Rat) (pd : List (String × List Record))
    (out : List (String × Rat) × List String) (altId : String)
    (hnin : altId ∉ pd.map Prod.fst)
    (hok : collectRankings dc pd = .ok out) :
    (∀ rs, (altId, rs) ∉ out.1) ∧ altId ∉ out.2 := by
  induction pd generalizing out with
  | nil =>
    simp only [collectRankings, Except.ok.injEq] at hok
    subst hok
    simp
  | cons head rest ih =>
    obtain ⟨a, recs⟩ := head
    simp only [List.map_cons, List.mem_cons, not_or] at hnin
    obtain ⟨hne, hnin⟩ := hnin
    by_cases hlen : recs.length < 2
    · rw [collectRankings_cons, if_pos hlen] at hok
      exact ih _ hnin hok
    · rw [collectRankings_cons, if_neg hlen] at hok
      cases hval : analyzeAlt dc recs with
      | error e => simp [hval] at hok
      | ok p =>
        obtain ⟨rs, fires⟩ := p
        cases hrest : collectRankings dc rest with
        | error e2 => simp [hval, hrest] at hok
        | ok out2 =>
          obtain ⟨rankings, alerts⟩ := out2
          simp only [hval, hrest, Except.ok.injEq] at hok
          subst hok
          obtain ⟨ih1, ih2⟩ := ih _ hnin hrest
          constructor
          · intro rs2
            simp only [List.mem_cons, Prod.mk.injEq, not_or]
            exact ⟨fun hcontra => hne hcontra.1, ih1 rs2⟩
          · by_cases hfi : fires <;> simp [hfi, List.mem_cons, hne]
            · exact ih2
            · exact ih2

theorem collect_ok_alert_iff (dc : Rat) (pd : List (String × List Record))
    (out : List (String × Rat) × List String) (altId : String) (records : List Record)
    (rs : Rat) (fires : Bool)
    (hnd : (pd.map Prod.fst).Nodup)
    (hmem : (altId, records) ∈ pd) (h2 : 2 ≤ records.length)
    (hval : analyzeAlt dc records = .ok (rs, fires))
    (hok : collectRankings dc pd = .ok out) :
    altId ∈ out.2 ↔ fires = true := by
  induction pd generalizing out with
  | nil => simp at hmem
  | cons head rest ih =>
    obtain ⟨a, recs⟩ := head
    simp only [List.map_cons, List.nodup_cons] at hnd
    obtain ⟨hna, hndr⟩ := hnd
    rw [List.mem_cons] at hmem
    by_cases hlen : recs.length < 2
    · rw [collectRankings_cons, if_pos hlen] at hok
      rcases hmem with heq | hmem
      · simp only [Prod.mk.injEq] at heq
        obtain ⟨rfl, rfl⟩ := heq
        omega
      · exact ih _ hndr hmem hok
    · rw [collectRankings_cons, if_neg hlen] at hok
      cases hval2 : analyzeAlt dc recs with
      | error e => simp [hval2] at hok
      | ok p =>
        obtain ⟨rs2, fires2⟩ := p
        cases hrest : collectRankings dc rest with
        | error e2 => simp [hval2, hrest] at hok
        | ok out2 =>
          obtain ⟨rankings2, alerts2⟩ := out2
          simp only [hval2, hrest, Except.ok.injEq] at hok
          subst hok
          rcases hmem with heq | hmem
          · simp only [Prod.mk.injEq] at heq
            obtain ⟨rfl, rfl⟩ := heq
            rw [hval] at hval2
            simp only [Except.ok.injEq, Prod.mk.injEq] at hval2
            obtain ⟨rfl, rfl⟩ := hval2
            have hnotin : altId ∉ alerts2 :=
              (collect_ok_not_mem dc rest (rankings2, alerts2) altId hna hrest).2
            cases hf : fires with
            | false => simp [hnotin]
            | true => simp
          · have haneq : altId ≠ a := by
              intro hcontra
              subst hcontra
              exact hna (List.mem_map_of_mem Prod.fst hmem)
            have hiff := ih _ hndr hmem hrest
            cases hf : fires2 with
            | false =>
              simp only [Bool.false_eq_true, if_false]
              exact hiff
            | true =>
              simp [List.mem_cons, haneq]
              exact hiff

theorem collect_ok_skip_not_mem (dc : Rat) (pd : List (String × List Record))
    (out : List (String × Rat) × List String) (altId : String) (records : List Record)
    (hnd : (pd.map Prod.fst).Nodup)
    (hmem : (altId, records) ∈ pd) (hlt : records.length < 2)
    (hok : collectRankings dc pd = .ok out) :
    (∀ rs, (altId, rs) ∉ out.1) ∧ altId ∉ out.2 := by
  induction pd generalizing out with
  | nil => simp at hmem
  | cons head rest ih =>
    obtain ⟨a, recs⟩ := head
    simp only [List.map_cons, List.nodup_cons] at hnd
    obtain ⟨hna, hndr⟩ := hnd
    rw [List.mem_cons] at hmem
    by_cases hlen : recs.length < 2
    · rw [collectRankings_cons, if_pos hlen] at hok
      rcases hmem with heq | hmem
      · simp only [Prod.mk.injEq] at heq
        obtain ⟨rfl, rfl⟩ := heq
        exact collect_ok_not_mem dc rest out altId hna hok
      · exact ih _ hndr hmem hok
    · rw [collectRankings_cons, if_neg hlen] at hok
      cases hval2 : analyzeAlt dc recs with
      | error e => simp [hval2] at hok
      | ok p =>
        obtain ⟨rs2, fires2⟩ := p
        cases hrest : collectRankings dc rest with
        | error e2 => simp [hval2, hrest] at hok
        | ok out2 =>
          obtain ⟨rankings2, alerts2⟩ := out2
          simp only [hval2, hrest, Except.ok.injEq] at hok
          subst hok
          rcases hmem with heq | hmem
          · simp only [Prod.mk.injEq] at heq
            obtain ⟨rfl, rfl⟩ := heq
            omega
          · have haneq : altId ≠ a := by
              intro hcontra
              subst hcontra
              exact hna (List.mem_map_of_mem Prod.fst hmem)
            obtain ⟨ih1, ih2⟩ := ih _ hndr hmem hrest
            constructor
            · intro rs
              simp only [List.mem_cons, Prod.mk.injEq, not_or]
              exact ⟨fun hcontra => haneq hcontra.1, ih1 rs⟩
            · by_cases hf : fires2 <;> simp [hf, List.mem_cons, haneq]
              · exact ih2
              · exact ih2

theorem analyze_alts_ok (pd : List (String × List Record)) (trend : List Rat)
    (top : List (String × Rat)) (alerts : List String)
    (hok : analyze_alts pd trend = .ok (top, alerts)) :
    ∃ rankings, collectRankings (btcDominanceChange trend) pd = .ok (rankings, alerts) ∧
      top = (rankings.insertionSort rankDescOrder).take 5 := by
  unfold analyze_alts at hok
  cases hcr : collectRankings (btcDominanceChange trend) pd with
  | error e => rw [hcr] at hok; exact Except.noConfusion hok
  | ok out =>
    obtain ⟨rankings, alerts2⟩ := out
    rw [hcr] at hok
    simp only [Except.ok.injEq, Prod.mk.injEq] at hok
    obtain ⟨htop, halerts⟩ := hok
    subst halerts
    exact ⟨rankings, rfl, htop.symm⟩

/-! Claim theorems. -/

/-- C1: for every asset with at least 2 samples in the window, the
analyzer records relative_strength = price_change - dominance_delta,
where price_change = (latest_price - initial_price) / initial_price
over the asset's window samples, and the dominance delta is
last_dominance - first_dominance when at least 2 dominance samples
exist, else 0. -/
theorem spec2proof_C1 (pd : List (String × List Record)) (trend : List Rat)
    (altId : String) (records : List Record)
    (rankings : List (String × Rat)) (alerts : List String)
    (hmem : (altId, records) ∈ pd) (h2 : 2 ≤ records.length)
    (hok : collectRankings (btcDominanceChange trend) pd = .ok (rankings, alerts)) :
    (altId,
      ((records.getLastD default).price - (records.headD default).price)
        / (records.headD default).price - btcDominanceChange trend) ∈ rankings ∧
    btcDominanceChange trend
      = if 2 ≤ trend.length then trend.getLastD 0 - trend.headD 0 else 0 := by
  obtain ⟨rs, fires, hval, hm1, hm2⟩ :=
    collect_ok_of_mem (btcDominanceChange trend) pd (rankings, alerts) altId records hmem h2 hok
  obtain ⟨hrs, v, hv, hfires⟩ := analyzeAlt_ok_spec (btcDominanceChange trend) records rs fires hval
  refine ⟨?_, rfl⟩
  rw [← hrs]
  exact hm1

/-- Witness for C1 at a concrete window: one asset with prices 1 then
2, volumes 1 then 4, dominance series 50 then 51. -/
theorem spec2proof_C1_witness :
    ("aaa",
      ((([⟨1, some 1⟩, ⟨2, some 4⟩] : List Record).getLastD default).price
          - (([⟨1, some 1⟩, ⟨2, some 4⟩] : List Record).headD default).price)
        / (([⟨1, some 1⟩, ⟨2, some 4⟩] : List Record).headD default).price
        - btcDominanceChange [50, 51]) ∈ [("aaa", (0 : Rat))] ∧
    btcDominanceChange [50, 51]
      = if 2 ≤ ([50, 51] : List Rat).length
        then ([50, 51] : List Rat).getLastD 0 - ([50, 51] : List Rat).headD 0 else 0 :=
  spec2proof_C1 [("aaa", [⟨1, some 1⟩, ⟨2, some 4⟩])] [50, 51]
    "aaa" [⟨1, some 1⟩, ⟨2, some 4⟩] [("aaa", 0)] ["aaa"]
    (List.mem_singleton.mpr rfl) (by norm_num)
    (by norm_num [collectRankings, analyzeAlt, avgVolume, btcDominanceChange,
      ACCUMULATION_VOLUME_SPIKE])

/-- C2: the ranking output of the analyzer is sorted descending by
relative strength, and its length is min 5 (count of qualifying
assets). -/
theorem spec2proof_C2 (pd : List (String × List Record)) (trend : List Rat)
    (top : List (String × Rat)) (alerts : List String)
    (hok : analyze_alts pd trend = .ok (top, alerts)) :
    top.Pairwise (fun a b => b.2 ≤ a.2) ∧ top.length = min 5 (qualifyingCount pd) := by
  obtain ⟨rankings, hcr, htop⟩ := analyze_alts_ok pd trend top alerts hok
  have hlen := collect_ok_length (btcDominanceChange trend) pd (rankings, alerts) hcr
  constructor
  · have hs : List.Sorted rankDescOrder (rankings.insertionSort rankDescOrder) :=
      List.sorted_insertionSort rankDescOrder rankings
    rw [htop]
    exact List.Pairwise.sublist (List.take_sublist 5 _) hs
  · rw [htop, List.length_take, List.length_insertionSort]
    simp only at hlen
    rw [hlen]

/-- Witness for C2 at a concrete window with one qualifying asset. -/
theorem spec2proof_C2_witness :
    ([("aaa", (0 : Rat))] : List (String × Rat)).Pairwise (fun a b => b.2 ≤ a.2) ∧
    ([("aaa", (0 : Rat))] : List (String × Rat)).length
      = min 5 (qualifyingCount [("aaa", [⟨1, some 1⟩, ⟨2, some 4⟩])]) :=
  spec2proof_C2 [("aaa", [⟨1, some 1⟩, ⟨2, some 4⟩])] [50, 51] [("aaa", 0)] ["aaa"]
    (by norm_num [analyze_alts, collectRankings, analyzeAlt, avgVolume, btcDominanceChange,
      ACCUMULATION_VOLUME_SPIKE, rankDescOrder])

/-- C3: for a qualifying asset, an accumulation alert is emitted iff
its latest volume strictly exceeds avg_volume * 1.5, where avg_volume
is the mean of the window volumes with null volumes coerced to 0; at
the exact boundary no alert is emitted. -/
theorem spec2proof_C3 (pd : List (String × List Record)) (trend : List Rat)
    (altId : String) (records : List Record)
    (top : List (String × Rat)) (alerts : List String) (v : Rat)
    (hnd : (pd.map Prod.fst).Nodup)
    (hmem : (altId, records) ∈ pd) (h2 : 2 ≤ records.length)
    (hv : (records.getLastD default).volume = some v)
    (hok : analyze_alts pd trend = .ok (top, alerts)) :
    (altId ∈ alerts ↔ avgVolume records * ACCUMULATION_VOLUME_SPIKE < v) ∧
    (v = avgVolume records * ACCUMULATION_VOLUME_SPIKE → altId ∉ alerts) := by
  obtain ⟨rankings, hcr, htop⟩ := analyze_alts_ok pd trend top alerts hok
  obtain ⟨rs, fires, hval, hm1, hm2⟩ :=
    collect_ok_of_mem (btcDominanceChange trend) pd (rankings, alerts) altId records hmem h2 hcr
  obtain ⟨hrs, v2, hv2, hfires⟩ := analyzeAlt_ok_spec (btcDominanceChange trend) records rs fires hval
  rw [hv] at hv2
  injection hv2 with hv3
  subst hv3
  have hiff := collect_ok_alert_iff (btcDominanceChange trend) pd (rankings, alerts)
    altId records rs fires hnd hmem h2 hval hcr
  constructor
  · exact hiff.trans hfires
  · intro hboundary hmemAlert
    have hlt := (hiff.trans hfires).mp hmemAlert
    rw [hboundary] at hlt
    exact lt_irrefl _ hlt

/-- Witness for C3: the qualifying asset's latest volume 4 exceeds
1.5 times its average volume 5/2, so the alert is emitted. -/
theorem spec2proof_C3_witness :
    ("aaa" ∈ ["aaa"] ↔
      avgVolume [⟨1, some 1⟩, ⟨2, some 4⟩] * ACCUMULATION_VOLUME_SPIKE < 4) ∧
    ((4 : Rat) = avgVolume [⟨1, some 1⟩, ⟨2, some 4⟩] * ACCUMULATION_VOLUME_SPIKE →
      "aaa" ∉ ["aaa"]) :=
  spec2proof_C3 [("aaa", [⟨1, some 1⟩, ⟨2, some 4⟩])] [50, 51]
    "aaa" [⟨1, some 1⟩, ⟨2, some 4⟩] [("aaa", 0)] ["aaa"] 4
    (by simp) (List.mem_singleton.mpr rfl) (by norm_num) rfl
    (by norm_num [analyze_alts, collectRankings, analyzeAlt, avgVolume, btcDominanceChange,
      ACCUMULATION_VOLUME_SPIKE, rankDescOrder])

/-- C4: an asset with fewer than 2 samples in the window is skipped
entirely: it appears neither in the ranking output nor among the
accumulation alerts. -/
theorem spec2proof_C4 (pd : List (String × List Record)) (trend : List Rat)
    (altId : String) (records : List Record)
    (top : List (String × Rat)) (alerts : List String)
    (hnd : (pd.map Prod.fst).Nodup)
    (hmem : (altId, records) ∈ pd) (hlt : records.length < 2)
    (hok : analyze_alts pd trend = .ok (top, alerts)) :
    (∀ rs, (altId, rs) ∉ top) ∧ altId ∉ alerts := by
  obtain ⟨rankings, hcr, htop⟩ := analyze_alts_ok pd trend top alerts hok
  obtain ⟨hnr, hna⟩ :=
    collect_ok_skip_not_mem (btcDominanceChange trend) pd (rankings, alerts)
      altId records hnd hmem hlt hcr
  refine ⟨?_, hna⟩
  intro rs hmemTop
  have hmemRank : (altId, rs) ∈ rankings := by
    rw [htop] at hmemTop
    have hsub := (List.take_sublist 5 (rankings.insertionSort rankDescOrder)).subset hmemTop
    exact (List.mem_insertionSort rankDescOrder).1 hsub
  exact hnr rs hmemRank

/-- Witness for C4: the one-sample asset is absent from both
outputs. -/
theorem spec2proof_C4_witness :
    (∀ rs, ("bb", rs) ∉ ([("aaa", (0 : Rat))] : List (String × Rat))) ∧
    "bb" ∉ ["aaa"] :=
  spec2proof_C4 [("aaa", [⟨1, some 1⟩, ⟨2, some 4⟩]), ("bb", [⟨1, some 1⟩])] [50, 51]
    "bb" [⟨1, some 1⟩] [("aaa", 0)] ["aaa"]
    (by simp) (by simp) (by norm_num)
    (by norm_num [analyze_alts, collectRankings, analyzeAlt, avgVolume, btcDominanceChange,
      ACCUMULATION_VOLUME_SPIKE, rankDescOrder])

/-- C5: for every dominance value d, d at or above 55 sets the high
alert, d at or below 45 sets the low alert, and a d strictly between
45 and 55 sets neither. Modelled from the spec, since src/main.py
declares the thresholds but never applies them. -/
theorem spec2proof_C5 (d : Rat) :
    BTC_DOMINANCE_HIGH = 55 ∧ BTC_DOMINANCE_LOW = 45 ∧
    (55 ≤ d → dominanceHighAlert d = true) ∧
    (d ≤ 45 → dominanceLowAlert d = true) ∧
    (45 < d → d < 55 → dominanceHighAlert d = false ∧ dominanceLowAlert d = false) := by
  refine ⟨rfl, rfl, ?_, ?_, ?_⟩
  · intro h
    simp only [dominanceHighAlert, BTC_DOMINANCE_HIGH, decide_eq_true_eq]
    exact h
  · intro h
    simp only [dominanceLowAlert, BTC_DOMINANCE_LOW, decide_eq_true_eq]
    exact h
  · intro h1 h2
    constructor
    · simp only [dominanceHighAlert, BTC_DOMINANCE_HIGH, decide_eq_false_iff_not]
      intro hcontra
      linarith
    · simp only [dominanceLowAlert, BTC_DOMINANCE_LOW, decide_eq_false_iff_not]
      intro hcontra
      linarith

/-- Witness for C5 at 56, 44 and 50. -/
theorem spec2proof_C5_witness :
    dominanceHighAlert 56 = true ∧ dominanceLowAlert 44 = true ∧
    dominanceHighAlert 50 = false ∧ dominanceLowAlert 50 = false := by
  have h1 := (spec2proof_C5 56).2.2.1 (by norm_num)
  have h2 := (spec2proof_C5 44).2.2.2.1 (by norm_num)
  have h3 := (spec2proof_C5 50).2.2.2.2 (by norm_num) (by norm_num)
  exact ⟨h1, h2, h3.1, h3.2⟩

/-- C6: the price-change alert fires iff a cached previous price
exists and the absolute difference reaches the 0.02 threshold; a first
observation never fires, and the cache entry is overwritten with the
current price unconditionally. Modelled from the spec, since
src/main.py declares the threshold but keeps no price cache. -/
theorem spec2proof_C6 (cache : String → Option Rat) (a : String) (c : Rat) :
    ALT_STRENGTH_CHANGE_THRESHOLD = 2/100 ∧
    (priceAlertFires cache a c = true ↔
      ∃ p, cache a = some p ∧ ALT_STRENGTH_CHANGE_THRESHOLD ≤ |c - p|) ∧
    (cache a = none → priceAlertFires cache a c = false) ∧
    priceCacheUpdate cache a c a = some c := by
  refine ⟨rfl, ?_, ?_, ?_⟩
  · unfold priceAlertFires
    cases hp : cache a with
    | none => simp
    | some p => simp
  · intro h
    unfold priceAlertFires
    rw [h]
  · unfold priceCacheUpdate
    simp

/-- Witness for C6: empty cache never fires but is overwritten; a
cached price 1 against current price 103/100 fires. -/
theorem spec2proof_C6_witness :
    priceAlertFires (fun _ => none) "abc" 1 = false ∧
    priceCacheUpdate (fun _ => none) "abc" 1 "abc" = some 1 ∧
    priceAlertFires (fun _ => some 1) "abc" (103/100) = true := by
  have h1 := (spec2proof_C6 (fun _ => none) "abc" 1).2.2.1 rfl
  have h2 := (spec2proof_C6 (fun _ => none) "abc" 1).2.2.2
  have habs : |(103 : Rat)/100 - 1| = 3/100 := by
    rw [show (103 : Rat)/100 - 1 = 3/100 by norm_num]
    exact abs_of_nonneg (by norm_num)
  have h3 := (spec2proof_C6 (fun _ => some 1) "abc" (103/100)).2.1.mpr
    ⟨1, rfl, by rw [habs]; norm_num [ALT_STRENGTH_CHANGE_THRESHOLD]⟩
  exact ⟨h1, h2, h3⟩

/-- C7 counterexample: a success response whose payload lacks the
expected field does not skip the cycle as the claim states; the
uncaught KeyError terminates the loop. -/
theorem spec2proof_C7_counterexample :
    (DomResponse.mk 200 none).btcField = none ∧
    dominanceCycle ⟨200, none⟩ = CycleOutcome.crashed ∧
    dominanceCycle ⟨200, none⟩ ≠ CycleOutcome.skipped := by
  have hcr : dominanceCycle ⟨200, none⟩ = CycleOutcome.crashed := by
    norm_num [dominanceCycle, fetch_btc_dominance]
  refine ⟨rfl, hcr, ?_⟩
  rw [hcr]
  intro hcontra
  exact CycleOutcome.noConfusion hcontra

/-- C7 as amended: a fetch with a non-success HTTP status returns None
and its cycle processing is skipped with no alert and no retry, while
a success response missing the expected field raises an uncaught
KeyError that terminates the loop instead of skipping the cycle. -/
theorem spec2proof_C7_amended (r : DomResponse) :
    (r.status ≠ 200 → fetch_btc_dominance r = .ok none ∧ dominanceCycle r = .skipped) ∧
    (r.status = 200 → r.btcField = none →
      fetch_btc_dominance r = .error .keyError ∧ dominanceCycle r = .crashed) := by
  constructor
  · intro hs
    have hf : fetch_btc_dominance r = .ok none := by
      unfold fetch_btc_dominance
      rw [if_neg hs]
    refine ⟨hf, ?_⟩
    unfold dominanceCycle
    rw [hf]
  · intro hs hb
    have hf : fetch_btc_dominance r = .error .keyError := by
      unfold fetch_btc_dominance
      rw [if_pos hs, hb]
    refine ⟨hf, ?_⟩
    unfold dominanceCycle
    rw [hf]

/-- Witness for the amended C7 at a 404 response and at a 200 response
with the field missing. -/
theorem spec2proof_C7_witness :
    fetch_btc_dominance ⟨404, some 50⟩ = .ok none ∧
    dominanceCycle ⟨404, some 50⟩ = .skipped ∧
    fetch_btc_dominance ⟨200, none⟩ = .error .keyError ∧
    dominanceCycle ⟨200, none⟩ = .crashed := by
  have h1 := (spec2proof_C7_amended ⟨404, some 50⟩).1 (by decide)
  have h2 := (spec2proof_C7_amended ⟨200, none⟩).2 rfl rfl
  exact ⟨h1.1, h1.2, h2.1, h2.2⟩

/-- C8: a qualifying asset whose first window sample has price 0 makes
the relative-strength division raise, and the whole analysis fails
instead of skipping the asset. -/
theorem spec2proof_C8 (pd : List (String × List Record)) (trend : List Rat)
    (altId : String) (records : List Record)
    (hmem : (altId, records) ∈ pd) (h2 : 2 ≤ records.length)
    (h0 : (records.headD default).price = 0) :
    analyzeAlt (btcDominanceChange trend) records = .error .zeroDivision ∧
    ∀ out, analyze_alts pd trend ≠ .ok out := by
  have herr := analyzeAlt_zero (btcDominanceChange trend) records h0
  refine ⟨herr, ?_⟩
  rintro ⟨top, alerts⟩ hok
  obtain ⟨rankings, hcr, htop⟩ := analyze_alts_ok pd trend top alerts hok
  obtain ⟨rs, fires, hval, hm1, hm2⟩ :=
    collect_ok_of_mem (btcDominanceChange trend) pd (rankings, alerts) altId records hmem h2 hcr
  rw [herr] at hval
  exact Except.noConfusion hval

/-- Witness for C8 at an asset whose first sample has price 0. -/
theorem spec2proof_C8_witness :
    analyzeAlt (btcDominanceChange [50, 51]) [⟨0, some 1⟩, ⟨2, some 4⟩]
      = .error .zeroDivision ∧
    ∀ out, analyze_alts [("aaa", [⟨0, some 1⟩, ⟨2, some 4⟩])] [50, 51] ≠ .ok out :=
  spec2proof_C8 [("aaa", [⟨0, some 1⟩, ⟨2, some 4⟩])] [50, 51]
    "aaa" [⟨0, some 1⟩, ⟨2, some 4⟩]
    (List.mem_singleton.mpr rfl) (by norm_num) rfl

/-- C9: a dominance reading of exactly 0.0 is treated like a failed
fetch by the truthiness check of the main loop: it is neither printed
nor stored, while any nonzero reading is stored. -/
theorem spec2proof_C9 :
    fetch_btc_dominance ⟨200, some 0⟩ = .ok (some 0) ∧
    dominanceCycle ⟨200, some 0⟩ = .skipped ∧
    ∀ d : Rat, d ≠ 0 → dominanceCycle ⟨200, some d⟩ = .stored d := by
  refine ⟨?_, ?_, ?_⟩
  · unfold fetch_btc_dominance
    norm_num
  · norm_num [dominanceCycle, fetch_btc_dominance]
  · intro d hd
    norm_num [dominanceCycle, fetch_btc_dominance, hd]

/-- Witness for C9: a nonzero reading of 50 is stored. -/
theorem spec2proof_C9_witness :
    dominanceCycle ⟨200, some 50⟩ = .stored 50 :=
  spec2proof_C9.2.2 50 (by norm_num)

/-- C10: null volumes are coerced to 0 only in the window average; the
latest volume is used raw, so a qualifying asset whose most recent
sample has a null volume makes the accumulation comparison raise and
the whole analysis fails. -/
theorem spec2proof_C10 (pd : List (String × List Record)) (trend : List Rat)
    (altId : String) (records : List Record)
    (hmem : (altId, records) ∈ pd) (h2 : 2 ≤ records.length)
    (h0 : (records.headD default).price ≠ 0)
    (hvol : (records.getLastD default).volume = none) :
    analyzeAlt (btcDominanceChange trend) records = .error .noneComparison ∧
    ∀ out, analyze_alts pd trend ≠ .ok out := by
  have herr := analyzeAlt_none (btcDominanceChange trend) records h0 hvol
  refine ⟨herr, ?_⟩
  rintro ⟨top, alerts⟩ hok
  obtain ⟨rankings, hcr, htop⟩ := analyze_alts_ok pd trend top alerts hok
  obtain ⟨rs, fires, hval, hm1, hm2⟩ :=
    collect_ok_of_mem (btcDominanceChange trend) pd (rankings, alerts) altId records hmem h2 hcr
  rw [herr] at hval
  exact Except.noConfusion hval

/-- Witness for C10 at an asset whose latest sample has a null
volume. -/
theorem spec2proof_C10_witness :
    analyzeAlt (btcDominanceChange [50, 51]) [⟨1, some 1⟩, ⟨2, none⟩]
      = .error .noneComparison ∧
    ∀ out, analyze_alts [("aaa", [⟨1, some 1⟩, ⟨2, none⟩])] [50, 51] ≠ .ok out :=
  spec2proof_C10 [("aaa", [⟨1, some 1⟩, ⟨2, none⟩])] [50, 51]
    "aaa" [⟨1, some 1⟩, ⟨2, none⟩]
    (List.mem_singleton.mpr rfl) (by norm_num) (by norm_num) rfl

end BtcDominance
